import Mathlib

set_option maxRecDepth 4000

/-! Verification development for the MLS image proxy (`src/app.py`).

The embedded parts are: the name-handling functions
(`normalize_image_name`, `is_valid_image_name`, `get_storage_key`,
`extract_image_name`), the origin-fetch routine
(`fetch_image_from_mls`) and the request handler (`get_image`).
Strings are modelled as Lean `String`s (lists of characters); the
network and the object store are modelled as explicit inputs describing
what each collaborator does for the one request under consideration. -/

/-- The Unicode decimal-digit ranges (general category Nd), as pairs of
code points.  Python's `re` pattern `\d` applied to a `str` matches
exactly the characters of category Nd.  (The exact upper reaches of the
table vary slightly with the interpreter's Unicode version; every
property proved below depends only on ASCII digits being Nd and on
`'.'`, `'/'`, `'L'`, a newline and the letters of `jpg` not being Nd,
which holds for all versions: no Nd character lies below U+0030 and
none lies strictly between U+0039 and U+0660.) -/
def ndRanges : List (Nat × Nat) :=
  [(0x30, 0x39), (0x660, 0x669), (0x6F0, 0x6F9), (0x7C0, 0x7C9),
   (0x966, 0x96F), (0x9E6, 0x9EF), (0xA66, 0xA6F), (0xAE6, 0xAEF),
   (0xB66, 0xB6F), (0xBE6, 0xBEF), (0xC66, 0xC6F), (0xCE6, 0xCEF),
   (0xD66, 0xD6F), (0xDE6, 0xDEF), (0xE50, 0xE59), (0xED0, 0xED9),
   (0xF20, 0xF29), (0x1040, 0x1049), (0x1090, 0x1099), (0x17E0, 0x17E9),
   (0x1810, 0x1819), (0x1946, 0x194F), (0x19D0, 0x19D9), (0x1A80, 0x1A89),
   (0x1A90, 0x1A99), (0x1B50, 0x1B59), (0x1BB0, 0x1BB9), (0x1C40, 0x1C49),
   (0x1C50, 0x1C59), (0xA620, 0xA629), (0xA8D0, 0xA8D9), (0xA900, 0xA909),
   (0xA9D0, 0xA9D9), (0xA9F0, 0xA9F9), (0xAA50, 0xAA59), (0xABF0, 0xABF9),
   (0xFF10, 0xFF19), (0x104A0, 0x104A9), (0x10D30, 0x10D39),
   (0x11066, 0x1106F), (0x110F0, 0x110F9), (0x11136, 0x1113F),
   (0x111D0, 0x111D9), (0x112F0, 0x112F9), (0x11450, 0x11459),
   (0x114D0, 0x114D9), (0x11650, 0x11659), (0x116C0, 0x116C9),
   (0x11730, 0x11739), (0x118E0, 0x118E9), (0x11950, 0x11959),
   (0x11C50, 0x11C59), (0x11D50, 0x11D59), (0x11DA0, 0x11DA9),
   (0x16A60, 0x16A69), (0x16AC0, 0x16AC9), (0x16B50, 0x16B59),
   (0x1D7CE, 0x1D7FF), (0x1E140, 0x1E149), (0x1E2F0, 0x1E2F9),
   (0x1E950, 0x1E959), (0x1FBF0, 0x1FBF9)]

/-- Python regex `\d` on a `str`: a Unicode decimal digit. -/
def pyDigit (c : Char) : Bool :=
  ndRanges.any fun p => decide (p.1 ≤ c.toNat) && decide (c.toNat ≤ p.2)

/-- Python regex `[0-9]`: an ASCII decimal digit. -/
def isAsciiDigit (c : Char) : Bool :=
  decide (48 ≤ c.toNat) && decide (c.toNat ≤ 57)

/-- `os.path.basename` for POSIX paths, as used on `str` inputs: the
suffix of the string after its last `'/'` (the whole string when no
`'/'` occurs). -/
def basenameList (cs : List Char) : List Char :=
  (cs.reverse.takeWhile fun c => c != '/').reverse

/-- The test `image_name.lower().endswith('.jpg')` from
`normalize_image_name` (src/app.py line 62): the final four characters
are `'.'`, then `j`/`J`, `p`/`P`, `g`/`G`.  Python lowercases the whole
string before the suffix test, but the only characters whose lowercase
forms supply the required `'.'`, `'j'`, `'p'`, `'g'` are exactly these
(the sole multi-character lowercase expansion, U+0130, cannot produce
any of them), so the two phrasings agree. -/
def endsJpgCI (cs : List Char) : Bool :=
  match cs.reverse with
  | c4 :: c3 :: c2 :: c1 :: _ =>
      (c4 == 'g' || c4 == 'G') && (c3 == 'p' || c3 == 'P') &&
      (c2 == 'j' || c2 == 'J') && c1 == '.'
  | _ => false

/-- `normalize_image_name` (src/app.py lines 57-64): take
`os.path.basename`, then drop the last four characters when the result
ends case-insensitively in `.jpg` (Python `image_name[:-4]`). -/
def normalizeList (cs : List Char) : List Char :=
  let b := basenameList cs
  if endsJpgCI b then b.take (b.length - 4) else b

/-- `normalize_image_name` on `String`s. -/
def normalize_image_name (s : String) : String :=
  String.mk (normalizeList s.data)

/-- The sub-pattern `\d+$` of the validation regex, with Python's `$`
semantics: one or more digits that reach the end of the string, where
`$` also matches just before a single final newline. -/
def digitsThenEnd : List Char → Bool
  | [] => false
  | [c] => pyDigit c
  | c :: rest => pyDigit c && (digitsThenEnd rest || rest == ['\n'])

/-- `re.match(r'^[0-9]{8}\.L\d+$', ·)` from `is_valid_image_name`
(src/app.py line 71), as a total-match predicate on the character
list. -/
def matchesGrammar : List Char → Bool
  | c1 :: c2 :: c3 :: c4 :: c5 :: c6 :: c7 :: c8 :: '.' :: 'L' :: t =>
      isAsciiDigit c1 && isAsciiDigit c2 && isAsciiDigit c3 && isAsciiDigit c4 &&
      isAsciiDigit c5 && isAsciiDigit c6 && isAsciiDigit c7 && isAsciiDigit c8 &&
      digitsThenEnd t
  | _ => false

/-- `is_valid_image_name` (src/app.py lines 66-71): normalize, then
match the grammar. -/
def is_valid_image_name (s : String) : Bool :=
  matchesGrammar (normalizeList s.data)

/-- `get_storage_key` (src/app.py lines 73-76): the normalized name
with `.jpg` appended. -/
def get_storage_key (s : String) : String :=
  String.mk (normalizeList s.data ++ ['.', 'j', 'p', 'g'])

/-- `extract_image_name` (src/app.py lines 78-84):
`re.match(r'^(?:\d{8}/)?([^/]+)$', path)`.  The match succeeds with the
optional date prefix exactly when the path is eight digits, a `'/'` and
a nonempty slash-free remainder (group 1 = that remainder); it succeeds
without the prefix exactly when the whole path is nonempty and
slash-free (group 1 = the whole path); otherwise the path is returned
unchanged. -/
def extract_image_name (path : String) : String :=
  if decide (10 ≤ path.data.length) && (path.data.take 8).all pyDigit &&
      (path.data.drop 8).head? == some '/' && ((path.data.drop 9).all fun c => c != '/')
  then String.mk (path.data.drop 9)
  else path

/-- What the origin server interaction does for the one request under
consideration: either the HTTP client raises (a timeout, or some other
network failure), or a response arrives.  `contentType` records the
response's Content-Type header — which `fetch_image_from_mls` never
reads — and `decodesAsImage` records whether `PIL.Image.open` accepts
the body. -/
inductive OriginBehavior where
  | respond (status : Nat) (contentType : Option String) (body : List Nat)
      (decodesAsImage : Bool)
  | timeout
  | netError
deriving DecidableEq

/-- A Python exception escaping a modelled function. -/
inductive PyError where
  | nameError
deriving DecidableEq

/-- `fetch_image_from_mls` (src/app.py lines 86-124).  A non-200
status, a body shorter than 100 bytes, or a body `PIL` rejects each
yield `None` (a Miss).  The module never imports `asyncio`, so when any
exception escapes the HTTP layer, matching it against the first clause
`except asyncio.TimeoutError:` (line 119) evaluates the unbound name
`asyncio` and raises `NameError`; the later `except Exception` clause
is never consulted, and the `NameError` escapes the function.  The
response's Content-Type header is never inspected. -/
def fetch_image_from_mls : OriginBehavior → Except PyError (Option (List Nat))
  | .respond status _ body dec =>
      if status ≠ 200 then .ok none
      else if body.length < 100 then .ok none
      else if dec then .ok (some body)
      else .ok none
  | .timeout => .error .nameError
  | .netError => .error .nameError

/-- The object store's answer to the one `get_object` call of the
request: the stored bytes, a `ClientError` with code `NoSuchKey`, a
`ClientError` with some other code, or a non-`ClientError` exception
(from the call or from reading the body). -/
inductive StoreGetResult where
  | found (data : List Nat)
  | noSuchKey
  | otherClientError
  | raised
deriving DecidableEq

/-- The object store's answer to the `put_object` call, when one is
made. -/
inductive StorePutResult where
  | ok
  | raised
deriving DecidableEq

/-- One I/O invocation made by the request handler. -/
inductive IOEvent where
  | storeGet (key : String)
  | originFetch (name : String)
  | storePut (key : String)
deriving DecidableEq

/-- The terminal outcome of a request. -/
inductive Outcome where
  | serve (data : List Nat)
  | badRequest
  | notFound
  | storageError
  | internalError
deriving DecidableEq

/-- `get_image` (src/app.py lines 126-189), returning the outcome and
the list of I/O invocations performed.  Invalid names raise
`HTTPException(400)` before any I/O.  A store `ClientError` other than
`NoSuchKey` becomes the 500 "Storage error"; a non-`ClientError` store
exception reaches the outer `except Exception` (500).  On `NoSuchKey`
the origin is fetched: `None` raises `HTTPException(404)`; an escaping
exception (the unbound-`asyncio` `NameError`) reaches the outer
`except Exception` (500); bytes are stored — the `put_object` result,
success or exception, never changes the response (lines 162-173) — and
served (200). -/
def get_image (image_name : String) (store : StoreGetResult) (origin : OriginBehavior)
    (put : StorePutResult) : Outcome × List IOEvent :=
  let _ := put
  let actual := extract_image_name image_name
  if is_valid_image_name actual then
    let key := get_storage_key actual
    match store with
    | .found data => (.serve data, [.storeGet key])
    | .otherClientError => (.storageError, [.storeGet key])
    | .raised => (.internalError, [.storeGet key])
    | .noSuchKey =>
        let ev := [IOEvent.storeGet key, IOEvent.originFetch (normalize_image_name actual)]
        match fetch_image_from_mls origin with
        | .error _ => (.internalError, ev)
        | .ok none => (.notFound, ev)
        | .ok (some data) =>
            if data.isEmpty then (.notFound, ev)
            else (.serve data, ev ++ [.storePut key])
  else (.badRequest, [])

/-- The character list contains no two adjacent `'.'` characters, i.e.
no `".."` substring. -/
def noDoubleDot : List Char → Bool
  | c :: d :: rest => !(c == '.' && d == '.') && noDoubleDot (d :: rest)
  | _ => true

/-- The storage-key shape asserted by the claim: eight decimal digits,
a literal `.L`, one or more decimal digits, then `.jpg`. -/
def digitsThenJpg : List Char → Bool
  | c :: rest => pyDigit c && (rest == ['.', 'j', 'p', 'g'] || digitsThenJpg rest)
  | [] => false

/-- The exact storage-key shape stated by the claim (eight decimal
digits, `.L`, one or more decimal digits, `.jpg`), as a predicate on
the derived key. -/
def keyShapeClaim (s : String) : Bool :=
  match s.data with
  | c1 :: c2 :: c3 :: c4 :: c5 :: c6 :: c7 :: c8 :: '.' :: 'L' :: t =>
      isAsciiDigit c1 && isAsciiDigit c2 && isAsciiDigit c3 && isAsciiDigit c4 &&
      isAsciiDigit c5 && isAsciiDigit c6 && isAsciiDigit c7 && isAsciiDigit c8 &&
      digitsThenJpg t
  | _ => false

/-- The amended storage-key shape: eight decimal digits, `.L`, one or
more decimal digits, optionally one newline (the Python `$` artifact),
then `.jpg`. -/
def digitsThenOptNlJpg : List Char → Bool
  | c :: rest => pyDigit c && (rest == ['.', 'j', 'p', 'g'] ||
      rest == ['\n', '.', 'j', 'p', 'g'] || digitsThenOptNlJpg rest)
  | [] => false

/-- Wrapper of `digitsThenOptNlJpg` with the eight-digit `.L` prefix. -/
def keyShapeAmended (s : String) : Bool :=
  match s.data with
  | c1 :: c2 :: c3 :: c4 :: c5 :: c6 :: c7 :: c8 :: '.' :: 'L' :: t =>
      isAsciiDigit c1 && isAsciiDigit c2 && isAsciiDigit c3 && isAsciiDigit c4 &&
      isAsciiDigit c5 && isAsciiDigit c6 && isAsciiDigit c7 && isAsciiDigit c8 &&
      digitsThenOptNlJpg t
  | _ => false

/-- The validation grammar as amended: on the normalized name, eight
ASCII decimal digits, a literal `.L`, then one or more decimal digits,
optionally followed by a single trailing newline (an artifact of
Python's `$`). -/
def specGrammarAmended (s : String) : Prop :=
  ∃ c1 c2 c3 c4 c5 c6 c7 c8 ts nl,
    s.data = c1 :: c2 :: c3 :: c4 :: c5 :: c6 :: c7 :: c8 :: '.' :: 'L' :: (ts ++ nl) ∧
    [c1, c2, c3, c4, c5, c6, c7, c8].all isAsciiDigit = true ∧
    ts ≠ [] ∧ ts.all pyDigit = true ∧ (nl = [] ∨ nl = ['\n'])

theorem ne_of_pyDigit {c x : Char} (h : pyDigit c = true) (hx : pyDigit x = false) :
    c ≠ x := by
  intro he
  rw [he, hx] at h
  exact Bool.false_ne_true h

theorem ne_of_isAsciiDigit {c x : Char} (h : isAsciiDigit c = true)
    (hx : isAsciiDigit x = false) : c ≠ x := by
  intro he
  rw [he, hx] at h
  exact Bool.false_ne_true h

theorem all_takeWhile (p : Char → Bool) : ∀ l : List Char, (l.takeWhile p).all p = true
  | [] => rfl
  | c :: cs => by
    by_cases hc : p c = true
    · simp [List.takeWhile_cons, hc, all_takeWhile p cs]
    · simp [List.takeWhile_cons, hc]

theorem takeWhile_eq_self_of_all {p : Char → Bool} :
    ∀ {l : List Char}, l.all p = true → l.takeWhile p = l
  | [], _ => rfl
  | c :: cs, h => by
    rw [List.all_cons, Bool.and_eq_true] at h
    simp [List.takeWhile_cons, h.1, takeWhile_eq_self_of_all h.2]

theorem basename_all_ne_slash (cs : List Char) :
    (basenameList cs).all (fun c => c != '/') = true := by
  unfold basenameList
  rw [List.all_reverse]
  exact all_takeWhile _ _

theorem basename_eq_self {cs : List Char} (h : cs.all (fun c => c != '/') = true) :
    basenameList cs = cs := by
  unfold basenameList
  rw [takeWhile_eq_self_of_all (by rwa [List.all_reverse]), List.reverse_reverse]

theorem all_take {p : Char → Bool} {l : List Char} (h : l.all p = true) (n : Nat) :
    (l.take n).all p = true := by
  rw [List.all_eq_true] at h ⊢
  exact fun x hx => h x (List.mem_of_mem_take hx)

theorem normalizeList_def (l : List Char) :
    normalizeList l =
      if endsJpgCI (basenameList l) then (basenameList l).take ((basenameList l).length - 4)
      else basenameList l := rfl

theorem normalizeList_all_ne_slash (cs : List Char) :
    (normalizeList cs).all (fun c => c != '/') = true := by
  rw [normalizeList_def]
  by_cases h : endsJpgCI (basenameList cs) = true
  · simp only [h, if_true]
    exact all_take (basename_all_ne_slash cs) _
  · simp only [h, Bool.false_eq_true, if_false]
    exact basename_all_ne_slash cs

theorem normalizeList_idem_of {cs : List Char} (h : endsJpgCI (normalizeList cs) = false) :
    normalizeList (normalizeList cs) = normalizeList cs := by
  conv_lhs => rw [normalizeList_def]
  rw [basename_eq_self (normalizeList_all_ne_slash cs), h]
  simp

theorem dte_decomp (t : List Char) (h : digitsThenEnd t = true) :
    ∃ ts nl, t = ts ++ nl ∧ ts ≠ [] ∧ ts.all pyDigit = true ∧ (nl = [] ∨ nl = ['\n']) := by
  induction t with
  | nil => simp [digitsThenEnd] at h
  | cons c rest ih =>
    cases rest with
    | nil =>
      refine ⟨[c], [], by simp, by simp, ?_, Or.inl rfl⟩
      simpa [digitsThenEnd] using h
    | cons d rest2 =>
      simp only [digitsThenEnd, Bool.and_eq_true, Bool.or_eq_true, beq_iff_eq] at h
      obtain ⟨hc, hrest⟩ := h
      rcases hrest with hdte | heq
      · obtain ⟨ts, nl, heq2, hne, hall, hnl⟩ := ih hdte
        refine ⟨c :: ts, nl, ?_, by simp, ?_, hnl⟩
        · rw [List.cons_append, ← heq2]
        · simp [List.all_cons, hc, hall]
      · exact ⟨[c], ['\n'], by simp [heq], by simp, by simp [hc], Or.inr rfl⟩

theorem dte_intro : ∀ (ts nl : List Char), ts ≠ [] → ts.all pyDigit = true →
    (nl = [] ∨ nl = ['\n']) → digitsThenEnd (ts ++ nl) = true
  | [], _, hne, _, _ => absurd rfl hne
  | [c], nl, _, hall, hnl => by
    have hc : pyDigit c = true := by simpa [List.all_cons] using hall
    rcases hnl with h | h <;> subst h
    · simpa [digitsThenEnd] using hc
    · simp [digitsThenEnd, hc]
  | c :: d :: ts3, nl, _, hall, hnl => by
    rw [List.all_cons, Bool.and_eq_true] at hall
    have hrec := dte_intro (d :: ts3) nl (by simp) hall.2 hnl
    rw [List.cons_append]
    have hsh : ∃ x xs, (d :: ts3) ++ nl = x :: xs := by
      cases nl <;> simp [List.cons_append]
    obtain ⟨x, xs, hx⟩ := hsh
    rw [hx] at hrec ⊢
    rw [show digitsThenEnd (c :: x :: xs) =
        (pyDigit c && (digitsThenEnd (x :: xs) || (x :: xs) == ['\n'])) from rfl]
    simp [hall.1, hrec]

theorem matchesGrammar_decomp (cs : List Char) :
    matchesGrammar cs = true ↔
      ∃ c1 c2 c3 c4 c5 c6 c7 c8 ts nl,
        cs = c1 :: c2 :: c3 :: c4 :: c5 :: c6 :: c7 :: c8 :: '.' :: 'L' :: (ts ++ nl) ∧
        [c1, c2, c3, c4, c5, c6, c7, c8].all isAsciiDigit = true ∧
        ts ≠ [] ∧ ts.all pyDigit = true ∧ (nl = [] ∨ nl = ['\n']) := by
  constructor
  · intro h
    unfold matchesGrammar at h
    split at h
    next c1 c2 c3 c4 c5 c6 c7 c8 t =>
      simp only [Bool.and_eq_true] at h
      obtain ⟨⟨⟨⟨⟨⟨⟨⟨h1, h2⟩, h3⟩, h4⟩, h5⟩, h6⟩, h7⟩, h8⟩, hdte⟩ := h
      obtain ⟨ts, nl, heq, hne, hall, hnl⟩ := dte_decomp t hdte
      exact ⟨c1, c2, c3, c4, c5, c6, c7, c8, ts, nl, by rw [← heq],
        by simp [List.all_cons, h1, h2, h3, h4, h5, h6, h7, h8], hne, hall, hnl⟩
    next => exact absurd h (by simp)
  · rintro ⟨c1, c2, c3, c4, c5, c6, c7, c8, ts, nl, heq, hdigits, hne, hall, hnl⟩
    subst heq
    simp only [List.all_cons, List.all_nil, Bool.and_eq_true, Bool.and_true] at hdigits
    obtain ⟨h1, h2, h3, h4, h5, h6, h7, h8⟩ := hdigits
    simp only [matchesGrammar, Bool.and_eq_true]
    exact ⟨⟨⟨⟨⟨⟨⟨⟨h1, h2⟩, h3⟩, h4⟩, h5⟩, h6⟩, h7⟩, h8⟩, dte_intro ts nl hne hall hnl⟩

theorem valid_getLast (cs : List Char) (h : matchesGrammar cs = true) :
    ∃ c, cs.getLast? = some c ∧ (pyDigit c = true ∨ c = '\n') := by
  obtain ⟨c1, c2, c3, c4, c5, c6, c7, c8, ts, nl, heq, _, hne, hall, hnl⟩ :=
    (matchesGrammar_decomp cs).1 h
  rcases hnl with h0 | h0 <;> subst h0
  · rcases List.eq_nil_or_concat ts with h1 | ⟨ts2, c, h1⟩
    · exact absurd h1 hne
    · refine ⟨c, ?_, Or.inl ?_⟩
      · rw [heq, h1]
        simp only [List.concat_eq_append, List.append_nil]
        rw [show c1 :: c2 :: c3 :: c4 :: c5 :: c6 :: c7 :: c8 :: '.' :: 'L' :: (ts2 ++ [c]) =
            (c1 :: c2 :: c3 :: c4 :: c5 :: c6 :: c7 :: c8 :: '.' :: 'L' :: ts2) ++ [c] by simp]
        exact List.getLast?_concat _
      · rw [List.all_eq_true] at hall
        exact hall c (by simp [h1])
  · refine ⟨'\n', ?_, Or.inr rfl⟩
    rw [heq]
    rw [show c1 :: c2 :: c3 :: c4 :: c5 :: c6 :: c7 :: c8 :: '.' :: 'L' :: (ts ++ ['\n']) =
        (c1 :: c2 :: c3 :: c4 :: c5 :: c6 :: c7 :: c8 :: '.' :: 'L' :: ts) ++ ['\n'] by simp]
    exact List.getLast?_concat _

theorem noDoubleDot_of_all : ∀ {l : List Char}, l.all (fun c => c != '.') = true →
    noDoubleDot l = true
  | [], _ => rfl
  | [_], _ => rfl
  | c :: d :: rest, h => by
    rw [List.all_cons, Bool.and_eq_true] at h
    have hrec := noDoubleDot_of_all h.2
    rw [show noDoubleDot (c :: d :: rest) =
        (!(c == '.' && d == '.') && noDoubleDot (d :: rest)) from rfl]
    have hc : (c == '.') = false := beq_eq_false_iff_ne.2 (bne_iff_ne.1 h.1)
    simp [hc, hrec]

theorem noDoubleDot_append : ∀ (xs ys : List Char), noDoubleDot xs = true →
    noDoubleDot ys = true → (xs.getLast? ≠ some '.' ∨ ys.head? ≠ some '.') →
    noDoubleDot (xs ++ ys) = true
  | [], ys, _, hy, _ => by simpa using hy
  | [c], ys, _, hy, hj => by
    cases ys with
    | nil => rfl
    | cons y ys2 =>
      rw [show ([c] ++ (y :: ys2) : List Char) = c :: y :: ys2 from rfl]
      rw [show noDoubleDot (c :: y :: ys2) =
          (!(c == '.' && y == '.') && noDoubleDot (y :: ys2)) from rfl]
      have hcy : ¬(c = '.' ∧ y = '.') := by
        rcases hj with h | h
        · exact fun hp => h (by simp [hp.1])
        · exact fun hp => h (by simp [hp.2])
      rw [hy]
      cases hc : c == '.' <;> cases hyy : y == '.' <;> simp_all
  | c :: d :: rest, ys, hx, hy, hj => by
    rw [show noDoubleDot (c :: d :: rest) =
        (!(c == '.' && d == '.') && noDoubleDot (d :: rest)) from rfl,
      Bool.and_eq_true] at hx
    have hj2 : (d :: rest).getLast? ≠ some '.' ∨ ys.head? ≠ some '.' := by
      rcases hj with h | h
      · exact Or.inl (by rwa [List.getLast?_cons_cons] at h)
      · exact Or.inr h
    have hrec := noDoubleDot_append (d :: rest) ys hx.2 hy hj2
    rw [List.cons_append, List.cons_append]
    rw [show noDoubleDot (c :: d :: (rest ++ ys)) =
        (!(c == '.' && d == '.') && noDoubleDot (d :: (rest ++ ys))) from rfl]
    rw [List.cons_append] at hrec
    simp [hx.1, hrec]

theorem dtonj_intro : ∀ (ts nl : List Char), ts ≠ [] → ts.all pyDigit = true →
    (nl = [] ∨ nl = ['\n']) →
    digitsThenOptNlJpg ((ts ++ nl) ++ ['.', 'j', 'p', 'g']) = true
  | [], _, hne, _, _ => absurd rfl hne
  | [c], nl, _, hall, hnl => by
    have hc : pyDigit c = true := by simpa [List.all_cons] using hall
    rcases hnl with h | h <;> subst h <;> simp [digitsThenOptNlJpg, hc]
  | c :: d :: ts3, nl, _, hall, hnl => by
    rw [List.all_cons, Bool.and_eq_true] at hall
    have hrec := dtonj_intro (d :: ts3) nl (by simp) hall.2 hnl
    have hx : (((c :: d :: ts3) ++ nl) ++ ['.', 'j', 'p', 'g']) =
        c :: (((d :: ts3) ++ nl) ++ ['.', 'j', 'p', 'g']) := by simp
    rw [hx]
    rw [show digitsThenOptNlJpg (c :: (((d :: ts3) ++ nl) ++ ['.', 'j', 'p', 'g'])) =
        (pyDigit c &&
          ((((d :: ts3) ++ nl) ++ ['.', 'j', 'p', 'g']) == ['.', 'j', 'p', 'g'] ||
           (((d :: ts3) ++ nl) ++ ['.', 'j', 'p', 'g']) == ['\n', '.', 'j', 'p', 'g'] ||
           digitsThenOptNlJpg (((d :: ts3) ++ nl) ++ ['.', 'j', 'p', 'g']))) from rfl]
    simp only [List.cons_append, List.append_assoc] at hrec
    simp [hall.1, hrec]

/-- C1, counterexample: the claim says `extract` has path-basename
semantics, so its result contains no `'/'`; but on a directory-traversal
path, which the route regex does not match, the code returns the path
unchanged, slashes included. -/
theorem extract_traversal_counterexample :
    extract_image_name "../../etc/passwd" = "../../etc/passwd" ∧
    (extract_image_name "../../etc/passwd").data.contains '/' = true :=
  ⟨by decide, by decide⟩

/-- C1, amended: `extract` maps the two documented examples to
`"ABCDEF01.L1"`, and in general returns either a slash-free component
(when its regex matches) or the input path unchanged — nested directory
structure in an unmatched path is preserved, not stripped. -/
theorem extract_final_component_or_unchanged :
    extract_image_name "20240101/ABCDEF01.L1" = "ABCDEF01.L1" ∧
    extract_image_name "ABCDEF01.L1" = "ABCDEF01.L1" ∧
    ∀ p : String, extract_image_name p = p ∨
      (extract_image_name p).data.all (fun c => c != '/') = true := by
  refine ⟨by decide, by decide, ?_⟩
  intro p
  unfold extract_image_name
  split
  next hcond =>
    simp only [Bool.and_eq_true] at hcond
    exact Or.inr hcond.2
  next => exact Or.inl rfl

/-- C2, counterexample: `normalize` is not idempotent — one application
to "a.jpg.jpg" strips one `.jpg` suffix and a second application strips
another. -/
theorem normalize_not_idempotent_counterexample :
    normalize_image_name (normalize_image_name "a.jpg.jpg") ≠
      normalize_image_name "a.jpg.jpg" := by decide

/-- C2, amended: `normalize` is idempotent on every input whose
normalized form does not itself still end case-insensitively in `.jpg`
(inputs such as "a.jpg.jpg" violate unrestricted idempotence). -/
theorem normalize_idempotent_unless_jpg (s : String)
    (h : endsJpgCI (normalizeList s.data) = false) :
    normalize_image_name (normalize_image_name s) = normalize_image_name s := by
  show String.mk (normalizeList (normalizeList s.data)) = String.mk (normalizeList s.data)
  rw [normalizeList_idem_of h]

/-- Witness for the amended C2 theorem at the concrete input
"photo.jpg". -/
theorem normalize_idempotent_unless_jpg_witness :
    endsJpgCI (normalizeList ("photo.jpg").data) = false ∧
    normalize_image_name (normalize_image_name "photo.jpg") =
      normalize_image_name "photo.jpg" :=
  ⟨by decide, normalize_idempotent_unless_jpg "photo.jpg" (by decide)⟩

/-- C3, counterexample: the claim's grammar is hex-or-decimal and its
example "ABCDEF01.L1" is said to validate, but the code's regex
`^[0-9]{8}\.L\d+$` accepts only decimal digits in the first run, so the
example is rejected. -/
theorem validate_hex_counterexample :
    is_valid_image_name "ABCDEF01.L1" = false := by decide

/-- C3, amended: `validate` accepts exactly: eight ASCII decimal
digits, a literal `.L`, then one or more decimal digits — not 1-2, and
no hex letters — optionally followed by one trailing newline (Python
`$`), evaluated after normalization; "12345678.L1" and
"12345678.L1.jpg" validate, "ABCDEF01.L1" does not. -/
theorem validate_grammar_exact :
    (∀ s : String, is_valid_image_name s = true ↔
      specGrammarAmended (normalize_image_name s)) ∧
    is_valid_image_name "12345678.L1" = true ∧
    is_valid_image_name "12345678.L1.jpg" = true ∧
    is_valid_image_name "ABCDEF01.L1" = false := by
  refine ⟨fun s => ?_, by decide, by decide, by decide⟩
  exact matchesGrammar_decomp (normalizeList s.data)

/-- C8, counterexample: a string containing a path separator can still
validate, because validation applies `os.path.basename` before the
grammar check. -/
theorem validate_slash_counterexample :
    is_valid_image_name "x/12345678.L1" = true ∧
    ("x/12345678.L1").data.contains '/' = true :=
  ⟨by decide, by decide⟩

/-- C8, amended: `validate` rejects the empty string and
"../../etc/passwd", but a string containing a path separator may be
accepted when its final path component matches the grammar — validation
factors through basename and is insensitive to directory structure. -/
theorem validate_basename_semantics :
    is_valid_image_name "" = false ∧
    is_valid_image_name "../../etc/passwd" = false ∧
    is_valid_image_name "x/12345678.L1" = true ∧
    ∀ s : String, is_valid_image_name s =
      is_valid_image_name (String.mk (basenameList s.data)) := by
  refine ⟨by decide, by decide, by decide, ?_⟩
  intro s
  show matchesGrammar (normalizeList s.data) =
    matchesGrammar (normalizeList (basenameList s.data))
  rw [normalizeList_def, normalizeList_def (basenameList s.data),
    basename_eq_self (basename_all_ne_slash s.data)]

/-- C4, code bug: the spec maps an origin-fetch timeout to a Miss and
the request to the 404 outcome, but the module never imports `asyncio`,
so a timeout raises `NameError` while its except clause is being
matched and the request ends in the 500 internal-error outcome
instead. -/
theorem timeout_yields_internal_error :
    fetch_image_from_mls OriginBehavior.timeout = Except.error PyError.nameError ∧
    get_image "12345678.L1" StoreGetResult.noSuchKey OriginBehavior.timeout
        StorePutResult.ok =
      (Outcome.internalError,
        [IOEvent.storeGet "12345678.L1.jpg", IOEvent.originFetch "12345678.L1"]) ∧
    (get_image "12345678.L1" StoreGetResult.noSuchKey OriginBehavior.timeout
        StorePutResult.ok).1 ≠ Outcome.notFound :=
  ⟨rfl, by decide, by decide⟩

/-- C5, counterexample: a 200 response whose Content-Type header is
present and is "text/html" (its first six characters are not "image/")
but whose 100-byte body decodes as an image is accepted and returned —
it is not mapped to the Miss result `none`. -/
theorem fetch_content_type_counterexample :
    fetch_image_from_mls
        (OriginBehavior.respond 200 (some "text/html") (List.replicate 100 0) true) =
      Except.ok (some (List.replicate 100 0)) ∧
    fetch_image_from_mls
        (OriginBehavior.respond 200 (some "text/html") (List.replicate 100 0) true) ≠
      Except.ok none ∧
    "text/html".data.take 6 ≠ "image/".data :=
  ⟨rfl, by simp [fetch_image_from_mls], by decide⟩

/-- C5, amended: `fetch` never inspects the Content-Type header — its
result is invariant under replacing that header — and a response is
accepted exactly when the status is 200, the body is at least 100
bytes, and the body decodes as an image. -/
theorem fetch_ignores_content_type :
    (∀ (status : Nat) (ct ct' : Option String) (body : List Nat) (dec : Bool),
      fetch_image_from_mls (OriginBehavior.respond status ct body dec) =
        fetch_image_from_mls (OriginBehavior.respond status ct' body dec)) ∧
    (∀ (status : Nat) (ct : Option String) (body : List Nat) (dec : Bool),
      fetch_image_from_mls (OriginBehavior.respond status ct body dec) =
          Except.ok (some body) ↔
        status = 200 ∧ 100 ≤ body.length ∧ dec = true) := by
  refine ⟨fun status ct ct' body dec => rfl, fun status ct body dec => ?_⟩
  by_cases hs : status = 200
  · by_cases hl : body.length < 100
    · simp [fetch_image_from_mls, hs, hl, not_le.mpr hl]
    · cases dec
      · simp [fetch_image_from_mls, hs, hl]
      · simp [fetch_image_from_mls, hs, hl, Nat.le_of_not_lt hl]
  · simp [fetch_image_from_mls, hs]

/-- C6: when the store lookup misses and the origin fetch succeeds with
nonempty bytes, a failing store put is absorbed: the request still ends
in the success outcome serving the fetched bytes. -/
theorem put_failure_absorbed (name : String) (origin : OriginBehavior) (data : List Nat)
    (hv : is_valid_image_name (extract_image_name name) = true)
    (hf : fetch_image_from_mls origin = Except.ok (some data))
    (hne : data.isEmpty = false) :
    (get_image name StoreGetResult.noSuchKey origin StorePutResult.raised).1 =
      Outcome.serve data := by
  simp [get_image, hv, hf, hne]

/-- Witness for the C6 theorem at concrete inputs. -/
theorem put_failure_absorbed_witness :
    is_valid_image_name (extract_image_name "12345678.L1") = true ∧
    fetch_image_from_mls
        (OriginBehavior.respond 200 none (List.replicate 100 0) true) =
      Except.ok (some (List.replicate 100 0)) ∧
    (List.replicate 100 (0 : Nat)).isEmpty = false ∧
    (get_image "12345678.L1" StoreGetResult.noSuchKey
        (OriginBehavior.respond 200 none (List.replicate 100 0) true)
        StorePutResult.raised).1 = Outcome.serve (List.replicate 100 0) :=
  ⟨by decide, rfl, by decide,
    put_failure_absorbed "12345678.L1" _ _ (by decide) rfl (by decide)⟩

/-- C7: an invalid extracted identifier ends the request with the 400
outcome and an empty I/O trace: no store get, no origin fetch, no store
put. -/
theorem invalid_name_performs_no_calls (name : String) (store : StoreGetResult)
    (origin : OriginBehavior) (put : StorePutResult)
    (h : is_valid_image_name (extract_image_name name) = false) :
    get_image name store origin put = (Outcome.badRequest, []) := by
  simp [get_image, h]

/-- Witness for the C7 theorem at the concrete input
"../../etc/passwd". -/
theorem invalid_name_performs_no_calls_witness :
    is_valid_image_name (extract_image_name "../../etc/passwd") = false ∧
    get_image "../../etc/passwd" (StoreGetResult.found [1, 2, 3])
        (OriginBehavior.respond 200 none [] true) StorePutResult.ok =
      (Outcome.badRequest, []) :=
  ⟨by decide,
    invalid_name_performs_no_calls "../../etc/passwd" _ _ _ (by decide)⟩

/-- C9: for every identifier the validator accepts, the derived storage
key carries exactly one `.jpg` suffix: it decomposes as `b ++ ".jpg"`
where `b` itself does not end in `.jpg`, whether or not the input
already carried a `.jpg` suffix. -/
theorem storage_key_single_jpg (s : String) (h : is_valid_image_name s = true) :
    ∃ b, (get_storage_key s).data = b ++ ['.', 'j', 'p', 'g'] ∧
      ∀ b2, b ≠ b2 ++ ['.', 'j', 'p', 'g'] := by
  refine ⟨normalizeList s.data, rfl, ?_⟩
  intro b2 hb
  obtain ⟨c, hlast, hc⟩ := valid_getLast _ h
  rw [hb, show b2 ++ ['.', 'j', 'p', 'g'] = (b2 ++ ['.', 'j', 'p']) ++ ['g'] by simp,
    List.getLast?_concat] at hlast
  injection hlast with hlast
  subst hlast
  rcases hc with h3 | h3
  · exact absurd h3 (by decide)
  · exact absurd h3 (by decide)

/-- Witness for the C9 theorem at the concrete input "12345678.L1". -/
theorem storage_key_single_jpg_witness :
    is_valid_image_name "12345678.L1" = true ∧
    ∃ b, (get_storage_key "12345678.L1").data = b ++ ['.', 'j', 'p', 'g'] ∧
      ∀ b2, b ≠ b2 ++ ['.', 'j', 'p', 'g'] :=
  ⟨by decide, storage_key_single_jpg "12345678.L1" (by decide)⟩

/-- C10, counterexample: the validator accepts "12345678.L1\n" (Python
`$` matches just before the trailing newline), but the derived storage
key "12345678.L1\n.jpg" does not match the claim's exact shape of eight
digits, `.L`, digits, `.jpg`. -/
theorem key_shape_newline_counterexample :
    is_valid_image_name "12345678.L1\n" = true ∧
    keyShapeClaim (get_storage_key "12345678.L1\n") = false :=
  ⟨by decide, by decide⟩

/-- C10, amended: for every input the validator accepts, the storage
key consists of eight decimal digits, `.L`, one or more decimal digits,
optionally one trailing newline (the Python `$` artifact), then `.jpg`;
in particular it contains no path separator and no `..` sequence. -/
theorem storage_key_shape_safe (s : String) (h : is_valid_image_name s = true) :
    keyShapeAmended (get_storage_key s) = true ∧
    (get_storage_key s).data.all (fun c => c != '/') = true ∧
    noDoubleDot (get_storage_key s).data = true := by
  have hmg : matchesGrammar (normalizeList s.data) = true := h
  obtain ⟨c1, c2, c3, c4, c5, c6, c7, c8, ts, nl, heq, hdig, hne, hall, hnl⟩ :=
    (matchesGrammar_decomp _).1 hmg
  refine ⟨?_, ?_, ?_⟩
  · have h2 : normalizeList s.data ++ ['.', 'j', 'p', 'g'] =
        c1 :: c2 :: c3 :: c4 :: c5 :: c6 :: c7 :: c8 :: '.' :: 'L' ::
          ((ts ++ nl) ++ ['.', 'j', 'p', 'g']) := by
      rw [heq]; simp
    show keyShapeAmended (String.mk (normalizeList s.data ++ ['.', 'j', 'p', 'g'])) = true
    rw [h2]
    show (isAsciiDigit c1 && isAsciiDigit c2 && isAsciiDigit c3 && isAsciiDigit c4 &&
      isAsciiDigit c5 && isAsciiDigit c6 && isAsciiDigit c7 && isAsciiDigit c8 &&
      digitsThenOptNlJpg ((ts ++ nl) ++ ['.', 'j', 'p', 'g'])) = true
    simp only [List.all_cons, List.all_nil, Bool.and_eq_true, Bool.and_true] at hdig
    obtain ⟨h1, hb2, h3, h4, h5, h6, h7, h8⟩ := hdig
    simp only [Bool.and_eq_true]
    exact ⟨⟨⟨⟨⟨⟨⟨⟨h1, hb2⟩, h3⟩, h4⟩, h5⟩, h6⟩, h7⟩, h8⟩, dtonj_intro ts nl hne hall hnl⟩
  · show (normalizeList s.data ++ ['.', 'j', 'p', 'g']).all (fun c => c != '/') = true
    rw [List.all_append, normalizeList_all_ne_slash]
    decide
  · show noDoubleDot (normalizeList s.data ++ ['.', 'j', 'p', 'g']) = true
    apply noDoubleDot_append
    · rw [heq]
      rw [show c1 :: c2 :: c3 :: c4 :: c5 :: c6 :: c7 :: c8 :: '.' :: 'L' :: (ts ++ nl) =
          [c1, c2, c3, c4, c5, c6, c7, c8] ++ ('.' :: 'L' :: (ts ++ nl)) from rfl]
      apply noDoubleDot_append
      · apply noDoubleDot_of_all
        rw [List.all_eq_true]
        intro x hx
        have hax : isAsciiDigit x = true := (List.all_eq_true.1 hdig) x hx
        exact bne_iff_ne.2 (ne_of_isAsciiDigit hax (by decide))
      · rw [show noDoubleDot ('.' :: 'L' :: (ts ++ nl)) =
            (!('.' == '.' && 'L' == '.') && noDoubleDot ('L' :: (ts ++ nl))) from rfl]
        have hLrest : ∀ x ∈ 'L' :: (ts ++ nl), (x != '.') = true := by
          intro x hx
          rcases List.mem_cons.1 hx with h4 | h4
          · subst h4; decide
          · rcases List.mem_append.1 h4 with h5 | h5
            · have hpx := (List.all_eq_true.1 hall) x h5
              exact bne_iff_ne.2 (ne_of_pyDigit hpx (by decide))
            · rcases hnl with h6 | h6 <;> subst h6
              · simp at h5
              · rw [List.mem_singleton] at h5; subst h5; decide
        have hnd := noDoubleDot_of_all (List.all_eq_true.2 hLrest)
        simp [hnd]
      · left
        rw [show ([c1, c2, c3, c4, c5, c6, c7, c8] : List Char) =
            [c1, c2, c3, c4, c5, c6, c7] ++ [c8] by simp, List.getLast?_concat]
        intro hcc
        injection hcc with hcc
        have hax : isAsciiDigit c8 = true := by
          rw [List.all_eq_true] at hdig
          exact hdig c8 (by simp)
        exact ne_of_isAsciiDigit hax (by decide) hcc
    · decide
    · left
      obtain ⟨c, hlast, hc⟩ := valid_getLast _ hmg
      rw [hlast]
      intro hcc
      injection hcc with hcc
      subst hcc
      rcases hc with h3 | h3
      · exact absurd h3 (by decide)
      · exact absurd h3 (by decide)

/-- Witness for the amended C10 theorem at the concrete input
"12345678.L1". -/
theorem storage_key_shape_safe_witness :
    is_valid_image_name "12345678.L1" = true ∧
    (keyShapeAmended (get_storage_key "12345678.L1") = true ∧
      (get_storage_key "12345678.L1").data.all (fun c => c != '/') = true ∧
      noDoubleDot (get_storage_key "12345678.L1").data = true) :=
  ⟨by decide, storage_key_shape_safe "12345678.L1" (by decide)⟩
